import Mathlib

/-!
Verification of the `aws-orchestrate` sequence/wrapper runtime.

The definitions below are a shallow embedding of `src/src/LambdaSequence.ts`
and `src/src/wrapper.ts`.  JavaScript values are modelled by `JVal`;
JavaScript objects are association lists in insertion order; mutation is
modelled by explicit state passing, so each method of the `LambdaSequence`
class returns its result together with the possibly mutated sequence, and a
thrown JavaScript exception is an `Except.error`.
-/

/-- A JavaScript value as it appears in step parameters, responses and
request bodies.  `dyn lookup` is the `IOrchestratedDynamicProperty`
sentinel object (shape: type orchestrated-dynamic-property plus a
`lookup` path); `undef` is the JavaScript `undefined` value. -/
inductive JVal where
  | undef : JVal
  | null : JVal
  | bool : Bool → JVal
  | num : Int → JVal
  | str : String → JVal
  | dyn : String → JVal
  | obj : List (String × JVal) → JVal

/-- The JavaScript `typeof` operator on a `JVal`. -/
def jsTypeof : JVal → String
  | .undef => "undefined"
  | .null => "object"
  | .bool _ => "boolean"
  | .num _ => "number"
  | .str _ => "string"
  | .dyn _ => "object"
  | .obj _ => "object"

/-- Strict equality of a JavaScript value with the `undefined` value
(`x === undefined`). -/
def jsStrictEqUndef : JVal → Bool
  | .undef => true
  | _ => false

/-- JavaScript `String(x)` coercion, to the extent the embedded code needs
it (used by the `dynamicProperties` getter). -/
def jsToString : JVal → String
  | .undef => "undefined"
  | .null => "null"
  | .bool true => "true"
  | .bool false => "false"
  | .num n => toString n
  | .str s => s
  | .dyn _ => "[object Object]"
  | .obj _ => "[object Object]"

/-- JavaScript truthiness of a value. -/
def jsTruthy : JVal → Bool
  | .undef => false
  | .null => false
  | .bool b => b
  | .num n => n != 0
  | .str s => s ≠ ""
  | .dyn _ => true
  | .obj _ => true

/-- Property assignment `o[k] = v` on a JavaScript object kept as an
association list: an existing key is overwritten in place, a new key is
appended (insertion order). -/
def setKey (m : List (String × JVal)) (k : String) (v : JVal) : List (String × JVal) :=
  if m.any (fun p => p.1 = k) then
    m.map (fun p => if p.1 = k then (k, v) else p)
  else m ++ [(k, v)]

/-- The object-spread merge of two objects, as in a JavaScript
spread of a then b: keys of `a` first, keys of `b` overwriting. -/
def spreadMerge (a b : List (String × JVal)) : List (String × JVal) :=
  b.foldl (fun acc kv => setKey acc kv.1 kv.2) a

/-- Field read on an object value (`none` when the key is missing or the
value is not an object). -/
def JVal.getField : JVal → String → Option JVal
  | .obj fs, k => (fs.find? (fun p => p.1 = k)).map (·.2)
  | _, _ => none

/-- Path traversal used by the `native-dash` `get(obj, path, dflt)` helper:
the dotted path is followed field by field. -/
def getPath : JVal → List String → Option JVal
  | v, [] => some v
  | v, k :: rest =>
    match v.getField k with
    | some v' => getPath v' rest
    | none => none

/-- Splits a dotted lookup path into its segments (the behaviour of
`path.split` on the `.` separator that `native-dash` uses for simple
dotted paths).  Implemented on the character list so that closed instances
reduce definitionally. -/
def splitPathAux : List Char → List Char → List String
  | [], acc => [⟨acc.reverse⟩]
  | c :: cs, acc =>
    if c = '.' then ⟨acc.reverse⟩ :: splitPathAux cs []
    else splitPathAux cs (c :: acc)

/-- Splits a dotted lookup path into segments. -/
def splitPath (s : String) : List String := splitPathAux s.data []

/-- The `native-dash` `get(obj, lookup, dflt)` lookup used by
`resolveRequestProperties`. -/
def jsGet (v : JVal) (lookup : String) (dflt : JVal) : JVal :=
  (getPath v (splitPath lookup)).getD dflt

/-- Whether the character list starts with the given pattern. -/
def listStartsWith : List Char → List Char → Bool
  | _, [] => true
  | [], _ :: _ => false
  | a :: as, b :: bs => a = b && listStartsWith as bs

/-- Helper for `replaceFirst`: scans the text left to right and replaces
the first occurrence of the (nonempty) pattern. -/
def replaceFirstAux (pat rep : List Char) : List Char → List Char
  | [] => []
  | c :: cs =>
    if listStartsWith (c :: cs) pat then rep ++ (c :: cs).drop pat.length
    else c :: replaceFirstAux pat rep cs

/-- JavaScript `String.prototype.replace` with a string pattern: only the
first occurrence of `pat` is replaced by `rep`; if the pattern does not
occur the string is returned unchanged. -/
def replaceFirst (s pat rep : String) : String :=
  if pat.data.isEmpty then s
  else ⟨replaceFirstAux pat.data rep.data s.data⟩

example : replaceFirst "aws-orchestrate/auth" "aws-orchestrate/" "myFn/" = "myFn/auth" := by
  decide

example : setKey [("a", .num 1), ("b", .num 2)] "a" (.num 7)
    = [("a", .num 7), ("b", .num 2)] := rfl

example : jsGet (.obj [("A", .obj [("data", .num 42)])]) "A.data" .undef = .num 42 := rfl

/-! ## The sequence model (`src/src/LambdaSequence.ts`) -/

/-- A thrown JavaScript exception, distinguishing an explicit
`throw new Error(msg)` from the untyped runtime `TypeError` raised by a
property access on `undefined`. -/
inductive JsErr where
  | typeErrorUndefined : JsErr
  | thrown : String → JsErr
deriving DecidableEq, Repr

/-- The progression status of a sequence step
(`assigned | active | completed | skipped`). -/
inductive Status where
  | assigned : Status
  | active : Status
  | completed : Status
  | skipped : Status
deriving DecidableEq, Repr

/-- The `ILambdaFunctionType` tag of a step. -/
inductive FnType where
  | task : FnType
  | fanOut : FnType
  | fanIn : FnType
  | other : FnType
deriving DecidableEq, Repr

/-- The conductor-level error policy a step may carry (`step.onError`):
either absent, a local handler function, or an `[arn, params]` forwarding
tuple.  A handler function is an opaque wire value evaluated at most once,
so it is modelled by the boolean it would return. -/
inductive OnErrorPolicy where
  | noPolicy : OnErrorPolicy
  | handler : Bool → OnErrorPolicy
  | forward : String → List (String × JVal) → OnErrorPolicy

/-- One `ILambdaSequenceStep`.  The optional `onCondition` predicate is an
opaque wire value evaluated at most once, so it is modelled by the boolean
it would return on the current responses map (`none` when the step has no
predicate). -/
structure Step where
  arn : String
  params : List (String × JVal)
  ftype : FnType
  status : Status
  onCondition : Option Bool := none
  onError : OnErrorPolicy := .noPolicy

/-- Decidable step predicates used by the getters (`filter`/`find`). -/
def Step.isActive (st : Step) : Bool := st.status == Status.active

/-- Whether the step still has status `assigned`. -/
def Step.isAssigned (st : Step) : Bool := st.status == Status.assigned

/-- Whether the step has status `completed`. -/
def Step.isCompleted (st : Step) : Bool := st.status == Status.completed

/-- The `LambdaSequence` class state: the private `_steps` list and the
private `_responses` dictionary. -/
structure LambdaSequence where
  steps : List Step
  responses : List (String × JVal)

namespace LambdaSequence

/-- `notASequence()` / a freshly constructed `LambdaSequence`. -/
def notASequence : LambdaSequence := { steps := [], responses := [] }

/-- The `isSequence` getter: `_steps && _steps.length > 0`. -/
def isSequence (s : LambdaSequence) : Bool := !s.steps.isEmpty

/-- The `remaining` getter: the steps still in the `assigned` category. -/
def remaining (s : LambdaSequence) : List Step := s.steps.filter Step.isAssigned

/-- The `completed` getter: the steps which have been completed. -/
def completed (s : LambdaSequence) : List Step := s.steps.filter Step.isCompleted

/-- The `nextFn` getter: the first remaining step, if any. -/
def nextFn (s : LambdaSequence) : Option Step := s.remaining.head?

/-- The `isDone` getter: `!this.nextFn`. -/
def isDone (s : LambdaSequence) : Bool := s.nextFn.isNone

/-- The `length` getter. -/
def length (s : LambdaSequence) : Nat := s.steps.length

/-- `add(arn, params, type)`: appends `{arn, params, type, status: assigned}`. -/
def add (s : LambdaSequence) (arn : String) (params : List (String × JVal))
    (ftype : FnType) : LambdaSequence :=
  { s with steps := s.steps ++ [{ arn := arn, params := params, ftype := ftype,
                                  status := .assigned }] }

/-- `onCondition(fn, arn, params)`: appends a conditional task step with
status `assigned` and the predicate attached. -/
def onCondition (s : LambdaSequence) (fn : Bool) (arn : String)
    (params : List (String × JVal)) : LambdaSequence :=
  { s with steps := s.steps ++ [{ arn := arn, params := params, ftype := .task,
                                  status := .assigned, onCondition := some fn }] }

/-- Sets the status of the first `assigned` step to `active` (the in-place
mutation performed by the `activeFn` getter on the step found by
`steps.find(status assigned)`). -/
def promoteFirstAssigned : List Step → List Step
  | [] => []
  | st :: rest =>
    if st.isAssigned then { st with status := .active } :: rest
    else st :: promoteFirstAssigned rest

/-- Sets the status of the first `active` step to `completed` (the
in-place mutation `this.activeFn.status = "completed"` in `finishStep`;
the getter returns `active[0]`, the first active step). -/
def completeFirstActive : List Step → List Step
  | [] => []
  | st :: rest =>
    if st.isActive then { st with status := .completed } :: rest
    else st :: completeFirstActive rest

/-- The message of the error thrown by the `activeFn` getter when no step
with status `assigned` can be found (the source message also interpolates
the serialized step list, which the model elides). -/
def activeFnMsg : String :=
  "Problem resolving activeFn: no step with status assigned found"

/-- The `activeFn` getter.  Returns `undefined` on a sequence with no
steps; otherwise returns the first `active` step, lazily promoting the
first `assigned` step to `active` when no step is active, and throwing
when neither an active nor an assigned step exists.  The promotion is an
in-place mutation, so the getter returns the possibly mutated sequence
(after promotion the recursive `return this.activeFn` yields the promoted
step, which is then the first active step). -/
def activeFn (s : LambdaSequence) : Except JsErr (Option Step) × LambdaSequence :=
  if s.steps.isEmpty then (.ok none, s)
  else
    match s.steps.find? Step.isActive with
    | some a => (.ok (some a), s)
    | none =>
      match s.steps.find? Step.isAssigned with
      | some st => (.ok (some { st with status := .active }),
                    { s with steps := promoteFirstAssigned s.steps })
      | none => (.error (.thrown activeFnMsg), s)

/-- `finishStep(results)`: registers the results of the currently active
step under its arn in `_responses` (the first `activeFn` access, which may
lazily promote), then sets that step's status to `completed` (the second
`activeFn` access).  On a sequence with no steps the getter returns
`undefined` and the subsequent `.arn` access raises an untyped runtime
`TypeError`. -/
def finishStep (s : LambdaSequence) (results : JVal) :
    Except JsErr Unit × LambdaSequence :=
  match s.activeFn with
  | (.error e, s') => (.error e, s')
  | (.ok none, s') => (.error .typeErrorUndefined, s')
  | (.ok (some st), s₁) =>
    let s₂ : LambdaSequence := { s₁ with responses := setKey s₁.responses st.arn results }
    match s₂.activeFn with
    | (.error e, s') => (.error e, s')
    | (.ok none, s') => (.error .typeErrorUndefined, s')
    | (.ok (some _), s₃) => (.ok (), { s₃ with steps := completeFirstActive s₃.steps })

end LambdaSequence

/-- Modelled from the spec: `isDynamic` (declared in
`dist/cjs/sequences/dynamic.d.ts`; its implementation is not under `src/`)
recognizes the `DynamicReference` sentinel shape — an object with type
orchestrated-dynamic-property and a `lookup` path (spec section 3,
"DynamicReference").  Plain strings, including legacy strings that begin
with a colon, are not of that shape. -/
def isDynamic : JVal → Bool
  | .dyn _ => true
  | _ => false

/-- The `lookup` property of a value (`(value as
IOrchestratedDynamicProperty).lookup`); only ever consulted after
`isDynamic` has accepted the value. -/
def dynLookup : JVal → String
  | .dyn l => l
  | _ => ""

namespace LambdaSequence

/-- The (never reachable, see `resolveRequestProperties_ok`) error text of
`resolveRequestProperties` for a dynamic property whose value could not be
found; the source interpolates the raw parameter value into the message,
which the model elides. -/
def dynamicErrMsg (key : String) : String :=
  "The property " ++ key ++ " was set as a dynamic property by the Orchestrator " ++
  "but it was dependant on getting a value from a lookup which could not be found"

/-- The body of the `reduce` in `resolveRequestProperties`, one parameter
key at a time: a dynamic value is replaced by the `native-dash` lookup in
`_responses` with default `undefined`, then guarded by the source's
comparison `typeof value === undefined` — which compares the string
returned by `typeof` against the undefined value and can therefore never
be true — and the (possibly replaced) value is assigned onto the
accumulated props object. -/
def resolveProps (responses : List (String × JVal)) :
    List (String × JVal) → List (String × JVal) → Except JsErr (List (String × JVal))
  | props, [] => .ok props
  | props, (k, v) :: rest =>
    if isDynamic v then
      let value := jsGet (.obj responses) (dynLookup v) .undef
      if jsStrictEqUndef (.str (jsTypeof value)) then .error (.thrown (dynamicErrMsg k))
      else resolveProps responses (setKey props k value) rest
    else resolveProps responses (setKey props k v) rest

/-- `resolveRequestProperties(fn)`: resolves the dynamic properties of the
given step against `_responses` and passes static properties through. -/
def resolveRequestProperties (s : LambdaSequence) (fn : Step) :
    Except JsErr (List (String × JVal)) :=
  resolveProps s.responses [] fn.params

/-- The resolution of a parameter list against a responses map with every
guard removed: what `resolveRequestProperties` actually computes (see
`resolveRequestProperties_ok`). -/
def resolveParamsPure (responses : List (String × JVal)) :
    List (String × JVal) → List (String × JVal) → List (String × JVal)
  | props, [] => props
  | props, (k, v) :: rest =>
    if isDynamic v then
      resolveParamsPure responses (setKey props k (jsGet (.obj responses) (dynLookup v) .undef)) rest
    else resolveParamsPure responses (setKey props k v) rest

/-- The `ISerializedSequence` shape produced by `toObject`: fields other
than `isSequence` are only present when the sequence is a sequence. -/
structure SerializedSequence where
  isSequence : Bool
  totalSteps : Option Nat := none
  completedSteps : Option Nat := none
  activeFnArn : Option String := none
  completedArns : Option (List String) := none
  remainingArns : Option (List String) := none
  steps : Option (List Step) := none
  responses : Option (List (String × JVal)) := none

/-- `toObject()`: serializes the sequence.  `totalSteps` and
`completedSteps` are computed before the `this.activeFn` access; that
access lazily promotes the first assigned step (mutating the sequence) and
throws on a non-empty sequence with no active and no assigned step; the
`completed`/`remaining` arn lists and the `steps` snapshot are taken after
the access. -/
def toObject (s : LambdaSequence) : Except JsErr SerializedSequence × LambdaSequence :=
  if s.isSequence then
    let total := s.steps.length
    let comp := (s.steps.filter Step.isCompleted).length
    match s.activeFn with
    | (.error e, s') => (.error e, s')
    | (.ok act, s') =>
      (.ok { isSequence := true
             totalSteps := some total
             completedSteps := some comp
             activeFnArn := act.map Step.arn
             completedArns := some ((s'.steps.filter Step.isCompleted).map Step.arn)
             remainingArns := some ((s'.steps.filter Step.isAssigned).map Step.arn)
             steps := some s'.steps
             responses := some s'.responses }, s')
  else (.ok { isSequence := false }, s)

/-- `LambdaSequence.deserialize(s)` (the static initializer): a fresh
sequence is created and, when the serialized form is a sequence, its
`steps` and `responses` are installed; otherwise the fresh empty sequence
is returned.  `toObject` always emits the `steps` and `responses` fields
when `isSequence` is true, so the `getD` defaults are never exercised on a
serialized form it produced. -/
def deserialize (ser : SerializedSequence) : LambdaSequence :=
  if ser.isSequence then
    { steps := ser.steps.getD [], responses := ser.responses.getD [] }
  else notASequence

/-- Modelled from the spec: the orchestrated envelope built by
`buildOrchestratedRequest` (in `sequences/index.ts`, not under `src/`):
`\x7b type: "orchestrated-message-body", body, sequence, headers \x7d`
with the body and the serialized sequence carried through the codec
(spec section 4.1); the header assembly is produced by the logging
infrastructure and is out of scope, so the model omits it. -/
structure OrchestratedRequest where
  rtype : String
  body : List (String × JVal)
  sequence : SerializedSequence

/-- `getInvocationParameters()`: resolves the active step's request
properties (the `activeFn` access may lazily promote), reads the arn from
a second `activeFn` access, and builds the orchestrated request from the
body and the serialized sequence (`validateCallDepth` is a stub in the
source and a no-op here). -/
def getInvocationParameters (s : LambdaSequence) :
    Except JsErr (String × OrchestratedRequest) × LambdaSequence :=
  match s.activeFn with
  | (.error e, s') => (.error e, s')
  | (.ok none, s') => (.error .typeErrorUndefined, s')
  | (.ok (some st), s₁) =>
    match s₁.resolveRequestProperties st with
    | .error e => (.error e, s₁)
    | .ok body =>
      match s₁.activeFn with
      | (.error e, s') => (.error e, s')
      | (.ok none, s') => (.error .typeErrorUndefined, s')
      | (.ok (some st₂), s₂) =>
        match s₂.toObject with
        | (.error e, s') => (.error e, s')
        | (.ok ser, s₃) =>
          (.ok (st₂.arn, { rtype := "orchestrated-message-body", body := body,
                           sequence := ser }), s₃)

/-- `next(currentFnResponse)`: `finishStep` followed by
`getInvocationParameters`. -/
def next (s : LambdaSequence) (currentFnResponse : JVal) :
    Except JsErr (String × OrchestratedRequest) × LambdaSequence :=
  match s.finishStep currentFnResponse with
  | (.error e, s') => (.error e, s')
  | (.ok (), s₁) => s₁.getInvocationParameters

/-- The error thrown by `ingestSteps` on a sequence that already has
steps. -/
def ingestErrMsg : String :=
  "Attempt to ingest steps into a LambdaSequence that already has steps!"

/-- `ingestSteps(request, steps)`: installs the given steps (the
serialized-string input form is not modelled; the claims only exercise the
array form), reads `activeFn` (which lazily promotes, and throws when the
ingested nonempty list has no active and no assigned step), merges the
active step's conductor-set params under the incoming request, and writes
the merged params back onto every step whose arn equals the active arn. -/
def ingestSteps (s : LambdaSequence) (request : JVal) (steps : List Step) :
    Except JsErr Unit × LambdaSequence :=
  if s.steps.length > 0 then (.error (.thrown ingestErrMsg), s)
  else
    let s₁ : LambdaSequence := { s with steps := steps }
    match s₁.activeFn with
    | (.error e, s') => (.error e, s')
    | (.ok act, s₂) =>
      let activeFnParams := match act with
        | some st => st.params
        | none => []
      let transformedRequest := match request with
        | .obj fs => spreadMerge activeFnParams fs
        | v => spreadMerge activeFnParams [("request", v)]
      match act with
      | none => (.ok (), s₂)
      | some st =>
        (.ok (), { s₂ with steps := s₂.steps.map (fun st' =>
          if st'.arn = st.arn then { st' with params := transformedRequest } else st') })

/-- The `dynamicProperties` getter: scans the active step's params (the
`activeFn` access may lazily promote) and collects, for every value whose
`String(...)` coercion begins with a colon, the key together with the rest
of the string. -/
def dynamicProperties (s : LambdaSequence) :
    Except JsErr (List (String × String)) × LambdaSequence :=
  match s.activeFn with
  | (.error e, s') => (.error e, s')
  | (.ok none, s') => (.ok [], s')
  | (.ok (some st), s') =>
    (.ok (st.params.foldl (fun prev kv =>
      if (jsToString kv.2).data.take 1 = [':'] then
        prev ++ [(kv.1, match kv.2 with | .str v => ⟨v.data.drop 1⟩ | _ => "")]
      else prev) []), s')

end LambdaSequence

/-! ## The error taxonomy and the wrapper pipeline (`src/src/wrapper.ts`) -/

/-- The data carried by a `ServerlessError` (the class implementation is
not under `src/`; the fields are modelled from the spec, section 4.3, and
from the enrichment sites in `src/src/wrapper.ts`): a caller-specified
http status code, a message, a classification, and the enrichment fields
`functionName`, `correlationId` and `awsRequestId` written by the
wrapper. -/
structure ServerlessErrorData where
  httpStatus : Nat
  message : String
  classification : String
  functionName : String := ""
  correlationId : String := ""
  awsRequestId : String := ""
deriving DecidableEq, Repr

/-- A thrown JavaScript error value as seen by the wrapper's cascade:
either an untyped `Error`, a `ServerlessError`, or one of the typed error
kinds (`HandledError`, `UnhandledError`, the user-provided default error,
`RethrowError`, `ErrorWithinError`). -/
inductive ErrVal where
  | plain : String → ErrVal
  | serverless : ServerlessErrorData → ErrVal
  | handled : Nat → ErrVal → ErrVal
  | unhandled : Nat → ErrVal → ErrVal
  | defaultErr : String → ErrVal
  | rethrow : ErrVal → ErrVal
  | errorWithinError : ErrVal → ErrVal → ErrVal
deriving DecidableEq, Repr

/-- The `type` tag property of an error value (`undefined` on an untyped
error). -/
def ErrVal.typeTag : ErrVal → Option String
  | .plain _ => none
  | .serverless _ => some "serverless-error"
  | .handled _ _ => some "handled-error"
  | .unhandled _ _ => some "unhandled-error"
  | .defaultErr _ => some "default-error"
  | .rethrow _ => some "rethrow-error"
  | .errorWithinError _ _ => some "error-within-error"

/-- An `Error` raised inside the sequence machinery, as an error value
(`JsErr` exceptions escaping `LambdaSequence` methods into the wrapper's
try block). -/
def jsErrVal : JsErr → ErrVal
  | .typeErrorUndefined => .plain "TypeError: cannot read property of undefined"
  | .thrown msg => .plain msg

/-- Modelled from the spec (section 4.4; `ErrorMeta`/`findError` are not
under `src/`): the handling disposition of a registered expectation — an
optional local callback (opaque, modelled by its boolean outcome) and an
optional forwarding arn. -/
structure Handling where
  callback : Option Bool := none
  forwardTo : Option String := none

/-- Modelled from the spec: the `ErrorHandler` record a matched
expectation yields: the configured error code and an optional handling
disposition (`found.handling` may be absent, meaning wrap-and-rethrow). -/
structure ErrorHandlerCfg where
  code : Nat
  handling : Option Handling := none

/-- Modelled from the spec: one registered expectation — a predicate over
the thrown value and the handler configuration it selects. -/
structure Expectation where
  pred : ErrVal → Bool
  handler : ErrorHandlerCfg

/-- The default policy of the error matcher (spec section 3,
"ErrorMatcher"): `default`, a handler function (opaque, modelled by its
outcome: a returned value or a throw), error forwarding, or a
user-provided default error. -/
inductive DefaultHandling where
  | default : DefaultHandling
  | handlerFn : Except ErrVal JVal → DefaultHandling
  | errorForwarding : String → DefaultHandling
  | defaultError : String → DefaultHandling

/-- Modelled from the spec: the `ErrorMeta` registry — the ordered
expectations, the default policy, and the default error code. -/
structure ErrorMeta where
  expectations : List Expectation
  defaultHandling : DefaultHandling
  defaultErrorCode : Nat

/-- Modelled from the spec: `findError(e, errorMeta)` returns the handler
of the first expectation whose predicate accepts the thrown value, when
any. -/
def findError (e : ErrVal) (meta : ErrorMeta) : Option ErrorHandlerCfg :=
  (meta.expectations.find? (fun ex => ex.pred e)).map Expectation.handler

/-- The record of one downstream invocation performed by the wrapper via
`invokeLambda` (only successful invocations are recorded): the next-step
invocation with its orchestrated body, the tracker notification, an error
payload forwarded to an arn, or a plain params payload. -/
inductive InvRecord where
  | orchestrated : String → List (String × JVal) → InvRecord
  | tracker : String → InvRecord
  | errPayload : String → ErrVal → InvRecord
  | params : String → List (String × JVal) → InvRecord

/-- The observable outcome of one wrapped invocation: a value returned to
a non-gateway caller, a marshalled gateway success response, a gateway
error response (`convertToApiGatewayError`, modelled by the error it
converts), or a thrown error. -/
inductive WrapperOutcome where
  | returned : JVal → WrapperOutcome
  | gatewayResponse : Nat → List (String × JVal) → WrapperOutcome
  | gatewayError : ErrVal → WrapperOutcome
  | threw : ErrVal → WrapperOutcome

/-- The environment of one wrapped invocation: everything the wrapper
reads that is produced outside `src/src/wrapper.ts` — the unboxed
sequence, the platform context fields, the user handler's outcome, the
error registry, the wrapper options, and the outcomes of the downstream
`invokeLambda` calls (each performed at most once per run). -/
structure WrapperEnv where
  sequence : LambdaSequence
  isApiGatewayRequest : Bool
  functionName : String
  correlationId : String
  awsRequestId : String
  userResult : Except ErrVal JVal
  errorMeta : ErrorMeta
  sequenceTracker : Option String := none
  newSequence : Option LambdaSequence := none
  statusCodeSet : Option Nat := none
  nextInvokeOutcome : Except ErrVal Unit := .ok ()
  newSeqInvokeOutcome : Except ErrVal Unit := .ok ()
  trackerInvokeOutcome : Except ErrVal Unit := .ok ()
  matcherForwardOutcome : Except ErrVal Unit := .ok ()
  defaultForwardOutcome : Except ErrVal Unit := .ok ()
  conductorForwardOutcome : Except ErrVal Unit := .ok ()

/-- The inner try of the error cascade (`wrapper.ts`, the body of the
try inside the catch): either a `return` out of the wrapper
(`some outcome`), normal fall-through (`none` — the wrapper then ends and
returns `undefined`), or a throw caught by the outer catch
(`Except.error`). -/
def runCascadeInner (env : WrapperEnv) (result : Option JVal)
    (invs : List InvRecord) (e : ErrVal) :
    Except ErrVal (Option WrapperOutcome × List InvRecord) :=
  let isGw := env.isApiGatewayRequest
  match e with
  | .serverless d =>
    -- `found` is the ServerlessError itself: enrich and `throw found`
    -- (the rewrite of the classification uses the just-assigned
    -- `found.functionName`, i.e. `context.functionName`).
    .error (.serverless
      { d with functionName := env.functionName
               classification :=
                 replaceFirst d.classification "aws-orchestrate/" (env.functionName ++ "/")
               correlationId := env.correlationId
               awsRequestId := env.awsRequestId })
  | _ =>
    match findError e env.errorMeta with
    | some found =>
      match found.handling with
      | none =>
        if isGw then .ok (some (.gatewayError (.handled found.code e)), invs)
        else .error (.handled found.code e)
      | some handling =>
        let afterCallback : Except ErrVal (Option (Option WrapperOutcome × List InvRecord)) :=
          match handling.callback with
          | some resolvedLocally =>
            if resolvedLocally then .ok none
            else if isGw then .ok (some (some (.gatewayError (.handled found.code e)), invs))
            else .error (.handled found.code e)
          | none => .ok none
        match afterCallback with
        | .error e' => .error e'
        | .ok (some ret) => .ok ret
        | .ok none =>
          match handling.forwardTo with
          | some arn =>
            match env.matcherForwardOutcome with
            | .error e' => .error e'
            | .ok () => .ok (none, invs ++ [.errPayload arn e])
          | none => .ok (none, invs)
    | none =>
      match env.errorMeta.defaultHandling with
      | .handlerFn outcome =>
        match outcome with
        | .ok passed =>
          match passed with
          | .bool true =>
            -- `passed === true`: resolved; 202 when a result exists, 204 otherwise
            if isGw then
              .ok (some (.gatewayResponse
                (if (result.map jsTruthy).getD false then 202 else 204) []), invs)
            else .ok (some (.returned (result.getD .undef)), invs)
          | _ => .ok (none, invs)
        | .error _ =>
          if isGw then .ok (some (.gatewayError (.unhandled env.errorMeta.defaultErrorCode e)), invs)
          else .error (.unhandled env.errorMeta.defaultErrorCode e)
      | .errorForwarding arn =>
        match env.defaultForwardOutcome with
        | .error e' => .error e'
        | .ok () => .ok (none, invs ++ [.errPayload arn e])
      | .defaultError msg =>
        if isGw then .ok (some (.gatewayError (.defaultErr msg)), invs)
        else .error (.defaultErr msg)
      | .default =>
        if isGw then .ok (some (.gatewayError (.unhandled env.errorMeta.defaultErrorCode e)), invs)
        else .error (.unhandled env.errorMeta.defaultErrorCode e)

/-- The error cascade (`wrapper.ts`, the catch around the whole pipeline):
runs the inner try and, when the inner try throws, the outer catch — a
`ServerlessError` is rethrown as-is; otherwise the active step's
conductor policy is consulted: `resolvedByConductor` is a closure the
source constructs but never invokes, so a local `onError` handler has no
effect; an `[arn, params]` tuple is spread into `invokeLambda` (the tuple's
own params, not the error, are the payload) and the error is then
swallowed; with no tuple, an already-typed error is wrapped in
`RethrowError` and anything else in `ErrorWithinError`.  The
`sequence.activeFn` getter access inside the catch can itself throw, which
escapes the wrapper unwrapped. -/
def runCascade (env : WrapperEnv) (result : Option JVal) (seq : LambdaSequence)
    (invs : List InvRecord) (e : ErrVal) : WrapperOutcome × List InvRecord :=
  match runCascadeInner env result invs e with
  | .ok (some out, invs') => (out, invs')
  | .ok (none, invs') => (.returned .undef, invs')
  | .error errorOfError =>
    match errorOfError with
    | .serverless d => (.threw (.serverless d), invs)
    | _ =>
      match seq.activeFn with
      | (.error jserr, _) => (.threw (jsErrVal jserr), invs)
      | (.ok act, _) =>
        -- the source's unused `resolvedByConductor` closure:
        let _resolvedByConductor : Option Bool :=
          match act with
          | some st => match st.onError with | .handler b => some b | _ => none
          | none => none
        let forwardedByConductor : Option (String × List (String × JVal)) :=
          match act with
          | some st => match st.onError with | .forward arn ps => some (arn, ps) | _ => none
          | none => none
        match forwardedByConductor with
        | some (arn, ps) =>
          match env.conductorForwardOutcome with
          | .error e' => (.threw e', invs)
          | .ok () => (.returned .undef, invs ++ [.params arn ps])
        | none =>
          if errorOfError.typeTag = some "unhandled-error" ∨
             errorOfError.typeTag = some "handled-error" ∨
             errorOfError.typeTag = some "default-error" then
            (.threw (.rethrow errorOfError), invs)
          else (.threw (.errorWithinError e errorOfError), invs)

/-- One run of the wrapped handler (`wrapper.ts`): await the user function
(its throw enters the cascade), then — on success — the sequence
continuation (`sequence.next(result)` and the downstream invocation), the
newly-registered sequence kick-off, the tracker notification (whose
payload is assembled by `sequenceStatus`, out of scope, recorded as a
`tracker` invocation), and the marshalling of the return value.  A throw
anywhere in these regions enters the cascade with the current (possibly
mutated) sequence.  Returns the outcome together with the successful
downstream invocations in order. -/
def runWrapper (env : WrapperEnv) : WrapperOutcome × List InvRecord :=
  match env.userResult with
  | .error e => runCascade env none env.sequence [] e
  | .ok result =>
    -- SEQUENCE (next)
    let contStep : Except (ErrVal × LambdaSequence × List InvRecord)
        (LambdaSequence × List InvRecord) :=
      if env.sequence.isSequence && !env.sequence.isDone then
        match env.sequence.next result with
        | (.error jserr, s') => .error (jsErrVal jserr, s', [])
        | (.ok (arn, req), s') =>
          match env.nextInvokeOutcome with
          | .error e' => .error (e', s', [.orchestrated arn req.body])
          | .ok () => .ok (s', [.orchestrated arn req.body])
      else .ok (env.sequence, [])
    match contStep with
    | .error (e, seq', invs) => runCascade env (some result) seq' invs e
    | .ok (seq₁, invs₁) =>
      -- SEQUENCE (orchestration starting)
      let newSeqStep : Except (ErrVal × List InvRecord) (List InvRecord) :=
        match env.newSequence with
        | some ns =>
          if ns.isSequence then
            match ns.getInvocationParameters with
            | (.error jserr, _) => .error (jsErrVal jserr, invs₁)
            | (.ok (arn, req), _) =>
              match env.newSeqInvokeOutcome with
              | .error e' => .error (e', invs₁ ++ [.orchestrated arn req.body])
              | .ok () => .ok (invs₁ ++ [.orchestrated arn req.body])
          else .ok invs₁
        | none => .ok invs₁
      match newSeqStep with
      | .error (e, invs) => runCascade env (some result) seq₁ invs e
      | .ok invs₂ =>
        -- SEQUENCE (send to tracker)
        let trackerStep : Except (ErrVal × List InvRecord) (List InvRecord) :=
          match env.sequenceTracker with
          | some trackerArn =>
            if seq₁.isSequence then
              match env.trackerInvokeOutcome with
              | .error e' => .error (e', invs₂)
              | .ok () => .ok (invs₂ ++ [.tracker trackerArn])
            else .ok invs₂
          | none => .ok invs₂
        match trackerStep with
        | .error (e, invs) => runCascade env (some result) seq₁ invs e
        | .ok invs₃ =>
          -- RETURN-VALUES
          if env.isApiGatewayRequest then
            (.gatewayResponse
              (env.statusCodeSet.getD (if jsTruthy result then 200 else 204))
              [("body", result)], invs₃)
          else (.returned result, invs₃)

/-! ## Basic lemmas about the step predicates and list helpers -/

/-- Whether the step has status `skipped`. -/
def Step.isSkipped (st : Step) : Bool := st.status == Status.skipped

theorem Step.isActive_iff {st : Step} : st.isActive = true ↔ st.status = Status.active := by
  simp [Step.isActive]

theorem Step.isAssigned_iff {st : Step} : st.isAssigned = true ↔ st.status = Status.assigned := by
  simp [Step.isAssigned]

theorem Step.isCompleted_iff {st : Step} : st.isCompleted = true ↔ st.status = Status.completed := by
  simp [Step.isCompleted]

/-- The per-step forward order on statuses: a status may stay, an
`assigned` step may advance anywhere, and an `active` step may complete. -/
def statusAdvance (a b : Status) : Bool :=
  a == b || a == Status.assigned || (a == Status.active && b == Status.completed)

theorem statusAdvance_refl (a : Status) : statusAdvance a a = true := by
  cases a <;> rfl

theorem statusAdvance_trans {a b c : Status} (h₁ : statusAdvance a b = true)
    (h₂ : statusAdvance b c = true) : statusAdvance a c = true := by
  revert h₁ h₂; cases a <;> cases b <;> cases c <;> decide

/-- Pointwise advancement of a step list: same length, the same arn at
every position, and a status that only moves forward. -/
def StepsAdvance (l l' : List Step) : Prop :=
  List.Forall₂ (fun a b => a.arn = b.arn ∧ statusAdvance a.status b.status = true) l l'

theorem stepsAdvance_refl (l : List Step) : StepsAdvance l l := by
  induction l with
  | nil => exact List.Forall₂.nil
  | cons a rest ih => exact List.Forall₂.cons ⟨rfl, statusAdvance_refl _⟩ ih

theorem stepsAdvance_trans {l m n : List Step} (h₁ : StepsAdvance l m)
    (h₂ : StepsAdvance m n) : StepsAdvance l n := by
  induction h₁ generalizing n with
  | nil => cases h₂; exact List.Forall₂.nil
  | cons hab _ ih =>
    cases h₂ with
    | cons hbc htail =>
      exact List.Forall₂.cons ⟨hab.1.trans hbc.1, statusAdvance_trans hab.2 hbc.2⟩ (ih htail)

namespace LambdaSequence

theorem promoteFirstAssigned_advance (l : List Step) :
    StepsAdvance l (promoteFirstAssigned l) := by
  induction l with
  | nil => exact List.Forall₂.nil
  | cons st rest ih =>
    by_cases h : st.isAssigned = true
    · simp only [promoteFirstAssigned, h, if_true]
      refine List.Forall₂.cons ⟨rfl, ?_⟩ (stepsAdvance_refl rest)
      simp only [statusAdvance, Step.isAssigned_iff.mp h]
      rfl
    · simp only [promoteFirstAssigned, h, if_false]
      exact List.Forall₂.cons ⟨rfl, statusAdvance_refl _⟩ ih

theorem completeFirstActive_advance (l : List Step) :
    StepsAdvance l (completeFirstActive l) := by
  induction l with
  | nil => exact List.Forall₂.nil
  | cons st rest ih =>
    by_cases h : st.isActive = true
    · simp only [completeFirstActive, h, if_true]
      refine List.Forall₂.cons ⟨rfl, ?_⟩ (stepsAdvance_refl rest)
      simp only [statusAdvance, Step.isActive_iff.mp h]
      rfl
    · simp only [completeFirstActive, h, if_false]
      exact List.Forall₂.cons ⟨rfl, statusAdvance_refl _⟩ ih

theorem promoteFirstAssigned_length (l : List Step) :
    (promoteFirstAssigned l).length = l.length := by
  induction l with
  | nil => rfl
  | cons st rest ih =>
    by_cases h : st.isAssigned = true <;>
      simp [promoteFirstAssigned, h, ih]

theorem completeFirstActive_length (l : List Step) :
    (completeFirstActive l).length = l.length := by
  induction l with
  | nil => rfl
  | cons st rest ih =>
    by_cases h : st.isActive = true <;>
      simp [completeFirstActive, h, ih]

theorem countP_promoteFirstAssigned_le (l : List Step) :
    (promoteFirstAssigned l).countP Step.isActive ≤ l.countP Step.isActive + 1 := by
  induction l with
  | nil => simp [promoteFirstAssigned]
  | cons st rest ih =>
    by_cases h : st.isAssigned = true
    · have hact : Step.isActive { st with status := Status.active } = true := by
        simp [Step.isActive]
      simp only [promoteFirstAssigned, h, if_true]
      rw [List.countP_cons_of_pos _ _ hact, List.countP_cons]
      omega
    · simp only [promoteFirstAssigned, h, if_false, Bool.false_eq_true]
      rw [List.countP_cons, List.countP_cons]
      omega

theorem countP_completeFirstActive_eq_zero {l : List Step}
    (h : l.countP Step.isActive ≤ 1) :
    (completeFirstActive l).countP Step.isActive = 0 := by
  induction l with
  | nil => rfl
  | cons st rest ih =>
    cases hst : st.isActive with
    | true =>
      have hc : ¬ Step.isActive { st with status := Status.completed } = true := by
        simp [Step.isActive]
      have hrest : rest.countP Step.isActive = 0 := by
        rw [List.countP_cons_of_pos _ _ hst] at h; omega
      simp only [completeFirstActive, hst, if_true]
      rw [List.countP_cons_of_neg _ _ hc, hrest]
    | false =>
      have hstn : ¬ st.isActive = true := by simp [hst]
      have hrest : rest.countP Step.isActive ≤ 1 := by
        rw [List.countP_cons_of_neg _ _ hstn] at h; omega
      simp only [completeFirstActive, hst, if_false, Bool.false_eq_true]
      rw [List.countP_cons_of_neg _ _ hstn, ih hrest]

theorem countP_completeFirstActive_le (l : List Step) :
    (completeFirstActive l).countP Step.isActive ≤ l.countP Step.isActive := by
  induction l with
  | nil => simp [completeFirstActive]
  | cons st rest ih =>
    cases hst : st.isActive with
    | true =>
      have hc : ¬ Step.isActive { st with status := Status.completed } = true := by
        simp [Step.isActive]
      simp only [completeFirstActive, hst, if_true]
      rw [List.countP_cons_of_neg _ _ hc, List.countP_cons_of_pos _ _ hst]
      omega
    | false =>
      have hstn : ¬ st.isActive = true := by simp [hst]
      simp only [completeFirstActive, hst, if_false, Bool.false_eq_true]
      rw [List.countP_cons_of_neg _ _ hstn, List.countP_cons_of_neg _ _ hstn]
      omega

theorem countP_zero_of_find?_none {l : List Step} {p : Step → Bool}
    (h : l.find? p = none) : l.countP p = 0 :=
  List.countP_eq_zero.mpr (List.find?_eq_none.mp h)

theorem find?_none_of_countP_zero {l : List Step} {p : Step → Bool}
    (h : l.countP p = 0) : l.find? p = none :=
  List.find?_eq_none.mpr (List.countP_eq_zero.mp h)

theorem promoteFirstAssigned_of_none {l : List Step}
    (h : l.find? Step.isAssigned = none) : promoteFirstAssigned l = l := by
  induction l with
  | nil => rfl
  | cons st rest ih =>
    rw [List.find?_cons] at h
    cases hst : st.isAssigned with
    | true => rw [hst] at h; exact absurd h (by simp)
    | false =>
      rw [hst] at h
      simp only [promoteFirstAssigned, hst, if_false, Bool.false_eq_true]
      rw [ih h]

theorem completeFirstActive_of_none {l : List Step}
    (h : l.find? Step.isActive = none) : completeFirstActive l = l := by
  induction l with
  | nil => rfl
  | cons st rest ih =>
    rw [List.find?_cons] at h
    cases hst : st.isActive with
    | true => rw [hst] at h; exact absurd h (by simp)
    | false =>
      rw [hst] at h
      simp only [completeFirstActive, hst, if_false, Bool.false_eq_true]
      rw [ih h]

/-- Promoting after a successful `find` of the first assigned step: the
step at the found position becomes active and the first active step of the
promoted list is exactly the promoted step (this is what the recursive
`return this.activeFn` of the getter returns after the in-place
mutation). -/
theorem promoteFirstAssigned_find?_active {l : List Step} {st : Step}
    (hna : l.find? Step.isActive = none)
    (h : l.find? Step.isAssigned = some st) :
    (promoteFirstAssigned l).find? Step.isActive
      = some { st with status := Status.active } := by
  induction l with
  | nil => simp at h
  | cons a rest ih =>
    rw [List.find?_cons] at h hna
    cases hact : a.isActive with
    | true => rw [hact] at hna; exact absurd hna (by simp)
    | false =>
      rw [hact] at hna
      cases hass : a.isAssigned with
      | true =>
        rw [hass] at h
        have : a = st := by simpa using h
        subst this
        simp only [promoteFirstAssigned, hass, if_true]
        rw [List.find?_cons_of_pos _ (by simp [Step.isActive])]
      | false =>
        rw [hass] at h
        simp only [promoteFirstAssigned, hass, if_false, Bool.false_eq_true]
        rw [List.find?_cons_of_neg _ (by simp [hact]), ih hna h]

/-- The combined effect of the lazy promotion followed by completion on a
list with no active step: the first assigned step ends up `completed` at
its position, and the result has no active step. -/
theorem complete_promote_spec {l : List Step} {st : Step}
    (hna : l.find? Step.isActive = none)
    (h : l.find? Step.isAssigned = some st) :
    ∃ i, l.get? i = some st ∧
      (completeFirstActive (promoteFirstAssigned l)).get? i
        = some { st with status := Status.completed } ∧
      (completeFirstActive (promoteFirstAssigned l)).find? Step.isActive = none := by
  induction l with
  | nil => simp at h
  | cons a rest ih =>
    rw [List.find?_cons] at h hna
    cases hact : a.isActive with
    | true => rw [hact] at hna; exact absurd hna (by simp)
    | false =>
      rw [hact] at hna
      cases hass : a.isAssigned with
      | true =>
        rw [hass] at h
        have : a = st := by simpa using h
        subst this
        refine ⟨0, rfl, ?_, ?_⟩
        · simp only [promoteFirstAssigned, hass, if_true]
          simp only [completeFirstActive, if_pos (by simp [Step.isActive] : Step.isActive
            { a with status := Status.active } = true)]
          rfl
        · simp only [promoteFirstAssigned, hass, if_true]
          simp only [completeFirstActive, if_pos (by simp [Step.isActive] : Step.isActive
            { a with status := Status.active } = true)]
          rw [List.find?_cons_of_neg _ (by simp [Step.isActive])]
          simpa using hna
      | false =>
        rw [hass] at h
        obtain ⟨i, h1, h2, h3⟩ := ih hna h
        refine ⟨i + 1, by simpa using h1, ?_, ?_⟩
        · simp only [promoteFirstAssigned, hass, if_false, Bool.false_eq_true]
          simp only [completeFirstActive, hact, if_false, Bool.false_eq_true]
          simpa using h2
        · simp only [promoteFirstAssigned, hass, if_false, Bool.false_eq_true]
          simp only [completeFirstActive, hact, if_false, Bool.false_eq_true]
          rw [List.find?_cons_of_neg _ (by simp [hact])]
          exact h3

/-- Completing when an active step exists: the first active step ends up
`completed` at its position and, when it was the only active step, the
result has no active step. -/
theorem complete_active_spec {l : List Step} {a : Step}
    (hle : l.countP Step.isActive ≤ 1)
    (h : l.find? Step.isActive = some a) :
    ∃ i, l.get? i = some a ∧
      (completeFirstActive l).get? i = some { a with status := Status.completed } ∧
      (completeFirstActive l).find? Step.isActive = none := by
  induction l with
  | nil => simp at h
  | cons b rest ih =>
    rw [List.find?_cons] at h
    cases hact : b.isActive with
    | true =>
      rw [hact] at h
      have : b = a := by simpa using h
      subst this
      have hrest : rest.countP Step.isActive = 0 := by
        rw [List.countP_cons_of_pos _ _ hact] at hle; omega
      refine ⟨0, rfl, ?_, ?_⟩
      · simp only [completeFirstActive, hact, if_true]
        rfl
      · simp only [completeFirstActive, hact, if_true]
        rw [List.find?_cons_of_neg _ (by simp [Step.isActive])]
        exact find?_none_of_countP_zero hrest
    | false =>
      rw [hact] at h
      have hrest : rest.countP Step.isActive ≤ 1 := by
        rw [List.countP_cons_of_neg _ _ (by simp [hact])] at hle; omega
      obtain ⟨i, h1, h2, h3⟩ := ih hrest h
      refine ⟨i + 1, by simpa using h1, ?_, ?_⟩
      · simp only [completeFirstActive, hact, if_false, Bool.false_eq_true]
        simpa using h2
      · simp only [completeFirstActive, hact, if_false, Bool.false_eq_true]
        rw [List.find?_cons_of_neg _ (by simp [hact])]
        exact h3

end LambdaSequence

namespace LambdaSequence

theorem steps_ne_nil_of_find? {l : List Step} {p : Step → Bool} {a : Step}
    (h : l.find? p = some a) : l ≠ [] := by
  cases l with
  | nil => simp at h
  | cons b rest => simp

theorem isEmpty_false_of_ne_nil {l : List Step} (h : l ≠ []) : l.isEmpty = false := by
  cases l with
  | nil => exact absurd rfl h
  | cons b rest => rfl

theorem activeFn_of_active {s : LambdaSequence} {a : Step}
    (h : s.steps.find? Step.isActive = some a) :
    s.activeFn = (.ok (some a), s) := by
  unfold activeFn
  rw [isEmpty_false_of_ne_nil (steps_ne_nil_of_find? h), h]
  rfl

theorem activeFn_of_promote {s : LambdaSequence} {st : Step}
    (hna : s.steps.find? Step.isActive = none)
    (h : s.steps.find? Step.isAssigned = some st) :
    s.activeFn = (.ok (some { st with status := Status.active }),
      { s with steps := promoteFirstAssigned s.steps }) := by
  unfold activeFn
  rw [isEmpty_false_of_ne_nil (steps_ne_nil_of_find? h), hna, h]
  rfl

theorem activeFn_of_err {s : LambdaSequence}
    (hne : s.steps ≠ [])
    (hna : s.steps.find? Step.isActive = none)
    (hno : s.steps.find? Step.isAssigned = none) :
    s.activeFn = (.error (.thrown activeFnMsg), s) := by
  unfold activeFn
  rw [isEmpty_false_of_ne_nil hne, hna, hno]
  rfl

/-- The step the getter designates as currently active, side-effect free:
the first active step if one exists, else the first assigned step. -/
def currentActiveStep (s : LambdaSequence) : Option Step :=
  match s.steps.find? Step.isActive with
  | some a => some a
  | none => s.steps.find? Step.isAssigned

/-- The steps after the lazy promotion the getter would perform: unchanged
when an active step exists, else with the first assigned step promoted. -/
def promoteIfNoActive (l : List Step) : List Step :=
  match l.find? Step.isActive with
  | some _ => l
  | none => promoteFirstAssigned l

theorem currentActiveStep_of_any {s : LambdaSequence}
    (hsome : (s.steps.any fun st => st.isActive || st.isAssigned) = true) :
    ∃ cur, currentActiveStep s = some cur := by
  unfold currentActiveStep
  cases hact : s.steps.find? Step.isActive with
  | some a => exact ⟨a, rfl⟩
  | none =>
    obtain ⟨st, hmem, hp⟩ := List.any_eq_true.mp hsome
    have hno : ∀ x ∈ s.steps, ¬ x.isActive = true := List.find?_eq_none.mp hact
    have : st.isAssigned = true := by
      cases hor : st.isActive with
      | true => exact absurd hor (hno st hmem)
      | false => rw [hor] at hp; simpa using hp
    have : (s.steps.find? Step.isAssigned).isSome :=
      List.find?_isSome.mpr ⟨st, hmem, this⟩
    cases hfind : s.steps.find? Step.isAssigned with
    | none => rw [hfind] at this; simp at this
    | some st' => exact ⟨st', rfl⟩

/-- `finishStep` on a sequence with a currently active (or lazily
promotable) step: the designated step is completed, its response is
recorded under its arn, and nothing else changes. -/
theorem finishStep_ok {s : LambdaSequence} {cur : Step} (resp : JVal)
    (hcur : currentActiveStep s = some cur) :
    s.finishStep resp = (.ok (),
      ⟨completeFirstActive (promoteIfNoActive s.steps),
       setKey s.responses cur.arn resp⟩) := by
  unfold currentActiveStep at hcur
  cases hact : s.steps.find? Step.isActive with
  | some a =>
    rw [hact] at hcur
    have ha : a = cur := by simpa using hcur
    subst ha
    have h2 : (⟨s.steps, setKey s.responses a.arn resp⟩ :
        LambdaSequence).steps.find? Step.isActive = some a := hact
    unfold finishStep
    rw [activeFn_of_active hact]
    dsimp only
    rw [activeFn_of_active h2]
    dsimp only
    simp [promoteIfNoActive, hact]
  | none =>
    rw [hact] at hcur
    have h2 : (⟨promoteFirstAssigned s.steps, setKey s.responses cur.arn resp⟩ :
        LambdaSequence).steps.find? Step.isActive
        = some { cur with status := Status.active } :=
      promoteFirstAssigned_find?_active hact hcur
    unfold finishStep
    rw [activeFn_of_promote hact hcur]
    dsimp only
    rw [activeFn_of_active h2]
    dsimp only
    simp [promoteIfNoActive, hact]

end LambdaSequence

namespace LambdaSequence

/-- The dead guard of `resolveRequestProperties`: the source compares the
string returned by `typeof` against the undefined value, which is never
true, so the resolution never throws and equals its guard-free version. -/
theorem resolveProps_eq_ok (responses props params) :
    resolveProps responses props params
      = .ok (resolveParamsPure responses props params) := by
  induction params generalizing props with
  | nil => rfl
  | cons kv rest ih =>
    obtain ⟨k, v⟩ := kv
    by_cases h : isDynamic v = true
    · simp only [resolveProps, resolveParamsPure, h, if_true, jsTypeof, jsStrictEqUndef]
      exact ih _
    · simp only [resolveProps, resolveParamsPure, h, if_false, Bool.false_eq_true]
      exact ih _

theorem resolveRequestProperties_ok (s : LambdaSequence) (fn : Step) :
    s.resolveRequestProperties fn
      = .ok (resolveParamsPure s.responses [] fn.params) :=
  resolveProps_eq_ok s.responses [] fn.params

/-- `toObject` on a sequence whose steps contain an active step: no
mutation happens and the serialized form snapshots the steps and the
responses. -/
theorem toObject_of_active {s : LambdaSequence} {a : Step}
    (h : s.steps.find? Step.isActive = some a) :
    s.toObject = (.ok
      { isSequence := true
        totalSteps := some s.steps.length
        completedSteps := some (s.steps.filter Step.isCompleted).length
        activeFnArn := some a.arn
        completedArns := some ((s.steps.filter Step.isCompleted).map Step.arn)
        remainingArns := some ((s.steps.filter Step.isAssigned).map Step.arn)
        steps := some s.steps
        responses := some s.responses }, s) := by
  unfold toObject
  have hseq : s.isSequence = true := by
    unfold isSequence
    rw [isEmpty_false_of_ne_nil (steps_ne_nil_of_find? h)]
    rfl
  rw [hseq]
  dsimp only
  rw [activeFn_of_active h]
  rfl

/-- `getInvocationParameters` on a sequence with no active step but a
first assigned step `nxt`: `nxt` is promoted, its params are resolved
against the responses, and the returned tuple carries its arn and the
orchestrated request. -/
theorem getInvocationParameters_of_assigned {s : LambdaSequence} {nxt : Step}
    (hna : s.steps.find? Step.isActive = none)
    (h : s.steps.find? Step.isAssigned = some nxt) :
    ∃ ser, s.getInvocationParameters
      = (.ok (nxt.arn,
          { rtype := "orchestrated-message-body"
            body := resolveParamsPure s.responses [] nxt.params
            sequence := ser }),
         ⟨promoteFirstAssigned s.steps, s.responses⟩) := by
  have hprom : (⟨promoteFirstAssigned s.steps, s.responses⟩ :
      LambdaSequence).steps.find? Step.isActive
      = some { nxt with status := Status.active } :=
    promoteFirstAssigned_find?_active hna h
  unfold getInvocationParameters
  rw [activeFn_of_promote hna h]
  dsimp only
  rw [show ({ s with steps := promoteFirstAssigned s.steps } : LambdaSequence)
       = ⟨promoteFirstAssigned s.steps, s.responses⟩ from rfl]
  rw [resolveRequestProperties_ok]
  dsimp only
  rw [activeFn_of_active hprom]
  dsimp only
  rw [toObject_of_active hprom]
  exact ⟨_, rfl⟩

/-- `getInvocationParameters` on a non-empty sequence with no active and
no assigned step: the `activeFn` getter throws. -/
theorem getInvocationParameters_of_err {s : LambdaSequence}
    (hne : s.steps ≠ [])
    (hna : s.steps.find? Step.isActive = none)
    (hno : s.steps.find? Step.isAssigned = none) :
    s.getInvocationParameters = (.error (.thrown activeFnMsg), s) := by
  unfold getInvocationParameters
  rw [activeFn_of_err hne hna hno]

end LambdaSequence

namespace LambdaSequence

theorem promoteIfNoActive_length (l : List Step) :
    (promoteIfNoActive l).length = l.length := by
  unfold promoteIfNoActive
  cases h : l.find? Step.isActive with
  | some a => rfl
  | none => exact promoteFirstAssigned_length l

theorem completePromote_ne_nil {s : LambdaSequence} (hne : s.steps ≠ []) :
    completeFirstActive (promoteIfNoActive s.steps) ≠ [] := by
  intro h
  have h1 : (completeFirstActive (promoteIfNoActive s.steps)).length = s.steps.length := by
    rw [completeFirstActive_length, promoteIfNoActive_length]
  rw [h] at h1
  exact hne (List.eq_nil_of_length_eq_zero h1.symm)

/-- What `next` does after `finishStep` has completed the current step:
either the first assigned step of the post-completion list is promoted and
returned with its resolved request, or the `activeFn` getter throws. -/
theorem next_cases {s : LambdaSequence} {cur : Step} (resp : JVal)
    (hcur : currentActiveStep s = some cur)
    (hfind₁ : (completeFirstActive (promoteIfNoActive s.steps)).find? Step.isActive = none)
    (hne₁ : completeFirstActive (promoteIfNoActive s.steps) ≠ []) :
    match (completeFirstActive (promoteIfNoActive s.steps)).find? Step.isAssigned with
    | some nxt =>
      ∃ req s', s.next resp = (.ok (nxt.arn, req), s') ∧
        req.rtype = "orchestrated-message-body" ∧
        req.body = resolveParamsPure (setKey s.responses cur.arn resp) [] nxt.params ∧
        s'.responses = setKey s.responses cur.arn resp ∧
        s'.steps.find? Step.isActive = some { nxt with status := Status.active }
    | none =>
      s.next resp = (.error (.thrown activeFnMsg),
        ⟨completeFirstActive (promoteIfNoActive s.steps),
         setKey s.responses cur.arn resp⟩) := by
  have hnext : s.next resp
      = (⟨completeFirstActive (promoteIfNoActive s.steps),
          setKey s.responses cur.arn resp⟩ : LambdaSequence).getInvocationParameters := by
    unfold next
    rw [finishStep_ok resp hcur]
  cases hass : (completeFirstActive (promoteIfNoActive s.steps)).find? Step.isAssigned with
  | some nxt =>
    have hna' : (⟨completeFirstActive (promoteIfNoActive s.steps),
        setKey s.responses cur.arn resp⟩ :
        LambdaSequence).steps.find? Step.isActive = none := hfind₁
    have hass' : (⟨completeFirstActive (promoteIfNoActive s.steps),
        setKey s.responses cur.arn resp⟩ :
        LambdaSequence).steps.find? Step.isAssigned = some nxt := hass
    obtain ⟨ser, heq⟩ := getInvocationParameters_of_assigned hna' hass'
    refine ⟨_, _, by rw [hnext, heq], rfl, rfl, rfl, ?_⟩
    exact promoteFirstAssigned_find?_active hfind₁ hass
  | none =>
    have hna' : (⟨completeFirstActive (promoteIfNoActive s.steps),
        setKey s.responses cur.arn resp⟩ :
        LambdaSequence).steps.find? Step.isActive = none := hfind₁
    have hass' : (⟨completeFirstActive (promoteIfNoActive s.steps),
        setKey s.responses cur.arn resp⟩ :
        LambdaSequence).steps.find? Step.isAssigned = none := hass
    have hne' : (⟨completeFirstActive (promoteIfNoActive s.steps),
        setKey s.responses cur.arn resp⟩ :
        LambdaSequence).steps ≠ [] := hne₁
    rw [hnext]
    exact getInvocationParameters_of_err hne' hna' hass'

end LambdaSequence

open LambdaSequence in
/-- C1: on a sequence with at least one assigned or active step (and at
most one active step, the reachable-state invariant of the model), `next`
completes the currently active step — lazily promoting the first assigned
step when none is active — records the response under that step's arn in
the responses map, then promotes the first remaining assigned step to
active and returns its arn together with an orchestrated envelope whose
body is that step's resolved parameters; when no assigned step remains
after the completion, `next` throws. -/
theorem C1_next_finalizes_promotes_and_returns (s : LambdaSequence) (resp : JVal)
    (hle : s.steps.countP Step.isActive ≤ 1)
    (hsome : (s.steps.any fun st => st.isActive || st.isAssigned) = true) :
    ∃ cur, currentActiveStep s = some cur ∧
      (∃ i, s.steps.get? i = some cur ∧
        (completeFirstActive (promoteIfNoActive s.steps)).get? i
          = some { cur with status := Status.completed }) ∧
      (match (completeFirstActive (promoteIfNoActive s.steps)).find? Step.isAssigned with
       | some nxt =>
         ∃ req s', s.next resp = (.ok (nxt.arn, req), s') ∧
           req.rtype = "orchestrated-message-body" ∧
           req.body = resolveParamsPure (setKey s.responses cur.arn resp) [] nxt.params ∧
           s'.responses = setKey s.responses cur.arn resp ∧
           s'.steps.find? Step.isActive = some { nxt with status := Status.active }
       | none =>
         s.next resp = (.error (.thrown activeFnMsg),
           ⟨completeFirstActive (promoteIfNoActive s.steps),
            setKey s.responses cur.arn resp⟩)) := by
  obtain ⟨cur, hcur⟩ := currentActiveStep_of_any hsome
  have hne : s.steps ≠ [] := by
    intro h; rw [h] at hsome; simp at hsome
  have hne₁ := completePromote_ne_nil hne
  refine ⟨cur, hcur, ?_, ?_⟩
  · -- the current step ends up completed at its position
    have hcur' := hcur
    unfold currentActiveStep at hcur'
    cases hact : s.steps.find? Step.isActive with
    | some a =>
      rw [hact] at hcur'
      have ha : a = cur := by simpa using hcur'
      subst ha
      have hpi : promoteIfNoActive s.steps = s.steps := by
        unfold promoteIfNoActive; rw [hact]
      obtain ⟨i, h1, h2, _⟩ := complete_active_spec hle hact
      exact ⟨i, h1, by rw [hpi]; exact h2⟩
    | none =>
      rw [hact] at hcur'
      have hpi : promoteIfNoActive s.steps = promoteFirstAssigned s.steps := by
        unfold promoteIfNoActive; rw [hact]
      obtain ⟨i, h1, h2, _⟩ := complete_promote_spec hact hcur'
      exact ⟨i, h1, by rw [hpi]; exact h2⟩
  · -- the continuation behaviour of next
    have hfind₁ : (completeFirstActive (promoteIfNoActive s.steps)).find? Step.isActive
        = none := by
      have hcur' := hcur
      unfold currentActiveStep at hcur'
      cases hact : s.steps.find? Step.isActive with
      | some a =>
        rw [hact] at hcur'
        have hpi : promoteIfNoActive s.steps = s.steps := by
          unfold promoteIfNoActive; rw [hact]
        obtain ⟨_, _, _, h3⟩ := complete_active_spec hle hact
        rw [hpi]; exact h3
      | none =>
        rw [hact] at hcur'
        have hpi : promoteIfNoActive s.steps = promoteFirstAssigned s.steps := by
          unfold promoteIfNoActive; rw [hact]
        obtain ⟨_, _, _, h3⟩ := complete_promote_spec hact hcur'
        rw [hpi]; exact h3
    exact next_cases resp hcur hfind₁ hne₁

/-- The concrete two-step sequence used by the C1 witness: step A active,
step B assigned. -/
def c1demoSeq : LambdaSequence :=
  ⟨[⟨"A", [], .task, .active, none, .noPolicy⟩,
    ⟨"B", [("x", .num 7)], .task, .assigned, none, .noPolicy⟩], []⟩

open LambdaSequence in
/-- Witness for C1: the hypotheses hold for `c1demoSeq` and `next`
completes step A and promotes step B. -/
theorem C1_witness :
    (c1demoSeq.steps.countP Step.isActive ≤ 1) ∧
    ((c1demoSeq.steps.any fun st => st.isActive || st.isAssigned) = true) ∧
    (∃ cur, currentActiveStep c1demoSeq = some cur) :=
  ⟨by decide, by decide, by
    obtain ⟨cur, hcur, -, -⟩ :=
      C1_next_finalizes_promotes_and_returns c1demoSeq (.num 1) (by decide) (by decide)
    exact ⟨cur, hcur⟩⟩

/-- A sequence whose only step is already completed: serializing it makes
the `activeFn` getter throw. -/
def c2badSeq : LambdaSequence :=
  ⟨[⟨"A", [], .task, .completed, none, .noPolicy⟩], []⟩

open LambdaSequence in
/-- C2 counterexample: the round-trip claim fails on a sequence whose only
step is completed — `toObject` (the serializer) itself throws the
`activeFn` error, so no serialized form exists to deserialize. -/
theorem C2_counterexample :
    c2badSeq.toObject = (.error (.thrown activeFnMsg), c2badSeq) := rfl

open LambdaSequence in
/-- C2 (amended): for a sequence that is empty (with empty responses) or
has an active or assigned step, serialization succeeds — possibly lazily
promoting the first assigned step, a mutation of the sequence itself — and
deserializing the serialized form yields exactly the post-serialization
state: same step list, same responses map, and hence the same derived
flags. -/
theorem C2_roundtrip_amended (s : LambdaSequence)
    (h : (s.steps = [] ∧ s.responses = []) ∨
         (s.steps.any fun st => st.isActive || st.isAssigned) = true) :
    ∃ ser s', s.toObject = (.ok ser, s') ∧
      deserialize ser = s' ∧
      (deserialize ser).isSequence = s'.isSequence ∧
      (deserialize ser).isDone = s'.isDone ∧
      (deserialize ser).remaining = s'.remaining ∧
      (deserialize ser).completed = s'.completed ∧
      (deserialize ser).responses = s'.responses ∧
      StepsAdvance s.steps s'.steps := by
  rcases h with ⟨h1, h2⟩ | h
  · obtain ⟨steps, responses⟩ := s
    cases h1; cases h2
    exact ⟨_, _, rfl, rfl, rfl, rfl, rfl, rfl, rfl, List.Forall₂.nil⟩
  · have hne : s.steps ≠ [] := by
      intro hnil; rw [hnil] at h; simp at h
    obtain ⟨cur, hcur⟩ := currentActiveStep_of_any h
    unfold currentActiveStep at hcur
    cases hact : s.steps.find? Step.isActive with
    | some a =>
      refine ⟨_, _, toObject_of_active hact, rfl, rfl, rfl, rfl, rfl, rfl,
        stepsAdvance_refl _⟩
    | none =>
      rw [hact] at hcur
      dsimp only at hcur
      have hseq : s.isSequence = true := by
        unfold isSequence
        rw [isEmpty_false_of_ne_nil hne]
        rfl
      have heq : s.toObject = (.ok
          { isSequence := true
            totalSteps := some s.steps.length
            completedSteps := some (s.steps.filter Step.isCompleted).length
            activeFnArn := some cur.arn
            completedArns := some (((promoteFirstAssigned s.steps).filter
              Step.isCompleted).map Step.arn)
            remainingArns := some (((promoteFirstAssigned s.steps).filter
              Step.isAssigned).map Step.arn)
            steps := some (promoteFirstAssigned s.steps)
            responses := some s.responses },
          ⟨promoteFirstAssigned s.steps, s.responses⟩) := by
        unfold toObject
        rw [hseq]
        dsimp only
        rw [activeFn_of_promote hact hcur]
        rfl
      exact ⟨_, _, heq, rfl, rfl, rfl, rfl, rfl, rfl, promoteFirstAssigned_advance _⟩

/-- The concrete one-step sequence used by the C2 witness. -/
def c2demoSeq : LambdaSequence :=
  ⟨[⟨"A", [], .task, .assigned, none, .noPolicy⟩], []⟩

open LambdaSequence in
/-- Witness for C2 (amended): a sequence with one assigned step serializes
successfully and round-trips to the post-serialization state. -/
theorem C2_witness :
    ∃ ser s', c2demoSeq.toObject = (.ok ser, s') ∧ deserialize ser = s' := by
  obtain ⟨ser, s', h1, h2, -⟩ :=
    C2_roundtrip_amended c2demoSeq (Or.inr (by decide))
  exact ⟨ser, s', h1, h2⟩

/-- The step with an unresolvable dynamic reference used by C3. -/
def c3step : Step := ⟨"B", [("x", .dyn "missing.path")], .task, .active, none, .noPolicy⟩

open LambdaSequence in
/-- C3: the source guard `typeof value === undefined` compares the string
returned by `typeof` with the undefined value and is never true, so
`resolveRequestProperties` never throws; at the concrete failing input —
a dynamic reference whose lookup path is absent from the responses map —
it silently passes `undefined` through instead of failing with the
descriptive error. -/
theorem C3_missing_lookup_not_an_error :
    (∀ (s : LambdaSequence) (fn : Step),
      s.resolveRequestProperties fn = .ok (resolveParamsPure s.responses [] fn.params)) ∧
    LambdaSequence.resolveRequestProperties ⟨[c3step], []⟩ c3step
      = .ok [("x", JVal.undef)] :=
  ⟨fun s fn => resolveRequestProperties_ok s fn, rfl⟩

/-- The conditional two-step sequence used by C7, with the predicate of
step B modelled by the boolean it would return. -/
def c7seq (b : Bool) : LambdaSequence :=
  ⟨[⟨"A", [], .task, .active, none, .noPolicy⟩,
    ⟨"B", [], .task, .assigned, some b, .noPolicy⟩], []⟩

open LambdaSequence in
/-- C7: activating a conditional step never consults its predicate — for
either predicate outcome, `next` promotes step B to `active` and returns
its arn for invocation, and no step ever receives status `skipped`. -/
theorem C7_onCondition_never_evaluated :
    ∀ b : Bool, ∃ req s',
      (c7seq b).next (.num 1) = (.ok ("B", req), s') ∧
      s'.steps.map Step.status = [Status.completed, Status.active] ∧
      ((s'.steps.all fun st => !(st.status == Status.skipped)) = true) ∧
      s'.steps.map Step.onCondition = [none, some b] := by
  intro b
  exact ⟨_, _, rfl, rfl, rfl, rfl⟩

/-- The active step carrying a legacy colon-string parameter, used by C9. -/
def c9stepLegacy : Step := ⟨"B", [("x", .str ":A.data")], .task, .active, none, .noPolicy⟩

/-- The same step with the parameter written as a `DynamicReference`
sentinel object, used by C9. -/
def c9stepDyn : Step := ⟨"B", [("x", .dyn "A.data")], .task, .active, none, .noPolicy⟩

/-- The responses map holding the value the C9 references point at. -/
def c9responses : List (String × JVal) := [("A", .obj [("data", .num 42)])]

open LambdaSequence in
/-- C9: a string parameter beginning with a colon is not treated as a
dynamic reference by `resolveRequestProperties` — it passes through as the
literal string, while the equivalent `DynamicReference` object resolves to
the referenced response value; the `dynamicProperties` getter does detect
the legacy colon form, but resolution never consults that getter. -/
theorem C9_legacy_colon_not_resolved :
    LambdaSequence.resolveRequestProperties ⟨[c9stepLegacy], c9responses⟩ c9stepLegacy
      = .ok [("x", .str ":A.data")] ∧
    LambdaSequence.resolveRequestProperties ⟨[c9stepDyn], c9responses⟩ c9stepDyn
      = .ok [("x", .num 42)] ∧
    LambdaSequence.dynamicProperties ⟨[c9stepLegacy], c9responses⟩
      = (.ok [("x", "A.data")], ⟨[c9stepLegacy], c9responses⟩) :=
  ⟨rfl, rfl, rfl⟩

open LambdaSequence in
/-- C10: on a zero-step sequence the `activeFn` getter returns `undefined`
without throwing and without modifying any state, so `finishStep` and
`next` fail with the untyped runtime `TypeError` of a property access on
`undefined`; a non-empty sequence with no assigned step instead fails with
the descriptive `activeFn` error. -/
theorem C10_empty_sequence_behaviour :
    (∀ rs, (⟨[], rs⟩ : LambdaSequence).activeFn = (.ok none, ⟨[], rs⟩)) ∧
    (∀ rs r, (⟨[], rs⟩ : LambdaSequence).finishStep r
      = (.error .typeErrorUndefined, ⟨[], rs⟩)) ∧
    (∀ rs r, (⟨[], rs⟩ : LambdaSequence).next r
      = (.error .typeErrorUndefined, ⟨[], rs⟩)) ∧
    LambdaSequence.finishStep ⟨[⟨"A", [], .task, .completed, none, .noPolicy⟩], []⟩ (.num 0)
      = (.error (.thrown activeFnMsg),
         ⟨[⟨"A", [], .task, .completed, none, .noPolicy⟩], []⟩) :=
  ⟨fun _ => rfl, fun _ _ => rfl, fun _ _ => rfl, rfl⟩

/-- C6: a `ServerlessError` thrown by the user handler is rethrown by the
wrapper as the same error enriched with the platform `functionName`, the
handler context's `correlationId` and `awsRequestId`, and the
classification with its first occurrence of the `aws-orchestrate/` marker
rewritten to the function name — no matcher, default policy,
`RethrowError` or `ErrorWithinError` wrapping is applied, and no
downstream invocation is performed. -/
theorem C6_serverless_error_enriched_and_rethrown (env : WrapperEnv)
    (d : ServerlessErrorData)
    (h : env.userResult = .error (.serverless d)) :
    runWrapper env = (.threw (.serverless
      { d with functionName := env.functionName
               classification := replaceFirst d.classification "aws-orchestrate/"
                 (env.functionName ++ "/")
               correlationId := env.correlationId
               awsRequestId := env.awsRequestId }), []) := by
  unfold runWrapper
  rw [h]
  rfl

/-- The concrete environment used by the C6 witness, mirroring the shape
of the repository's error-handling test. -/
def c6env : WrapperEnv :=
  { sequence := LambdaSequence.notASequence
    isApiGatewayRequest := false
    functionName := "myHandlerFunction"
    correlationId := "c-123"
    awsRequestId := "1234"
    userResult := .error (.serverless
      { httpStatus := 403, message := "nope", classification := "aws-orchestrate/auth" })
    errorMeta := { expectations := [], defaultHandling := .default, defaultErrorCode := 500 } }

/-- Witness for C6: the enrichment at a concrete environment. -/
theorem C6_witness :
    runWrapper c6env = (.threw (.serverless
      { httpStatus := 403, message := "nope",
        classification := "myHandlerFunction/auth",
        functionName := "myHandlerFunction", correlationId := "c-123",
        awsRequestId := "1234" }), []) := by
  have h := C6_serverless_error_enriched_and_rethrown c6env
    { httpStatus := 403, message := "nope", classification := "aws-orchestrate/auth" } rfl
  rw [h]
  rfl

/-- The concrete environment of the C5 counterexample: the user function
succeeds, the invocation is the final step of a sequence, a sequence
tracker is configured, and the tracker invocation throws. -/
def c5env : WrapperEnv :=
  { sequence := ⟨[⟨"A", [], .task, .completed, none, .noPolicy⟩,
                  ⟨"B", [], .task, .active, none, .noPolicy⟩], []⟩
    isApiGatewayRequest := false
    functionName := "fnB"
    correlationId := "c-5"
    awsRequestId := "r-5"
    userResult := .ok (.num 3)
    errorMeta := { expectations := [], defaultHandling := .default, defaultErrorCode := 500 }
    sequenceTracker := some "tracker"
    trackerInvokeOutcome := .error (.plain "tracker down") }

/-- C5 counterexample: with the tracker invocation throwing, the wrapper
does not return the user function's result — the tracker error enters the
error cascade and the wrapper throws. -/
theorem C5_counterexample :
    runWrapper c5env
      = (.threw (.rethrow (.unhandled 500 (.plain "tracker down"))), []) ∧
    (runWrapper c5env).1 ≠ WrapperOutcome.returned (JVal.num 3) :=
  ⟨rfl, fun h => nomatch h⟩

/-- C5 (amended): when the handler succeeds but the configured tracker
invocation throws, the thrown error is processed by the error cascade
exactly like a handler error: with no matching expectation and the
`default` policy on a non-gateway invocation, the wrapper throws the
`RethrowError`-wrapped `UnhandledError` built from the tracker error
instead of returning the user function's result. -/
theorem C5_tracker_failure_enters_cascade (env : WrapperEnv) (r : JVal) (m : String)
    (tr : String) (st : Step) (s' : LambdaSequence)
    (hres : env.userResult = .ok r)
    (hseq : env.sequence.isSequence = true)
    (hdone : env.sequence.isDone = true)
    (hnew : env.newSequence = none)
    (htr : env.sequenceTracker = some tr)
    (hfail : env.trackerInvokeOutcome = .error (.plain m))
    (hexp : env.errorMeta.expectations = [])
    (hdef : env.errorMeta.defaultHandling = .default)
    (hgw : env.isApiGatewayRequest = false)
    (hact : env.sequence.activeFn = (.ok (some st), s'))
    (herr : st.onError = .noPolicy) :
    runWrapper env
      = (.threw (.rethrow (.unhandled env.errorMeta.defaultErrorCode (.plain m))), []) := by
  unfold runWrapper
  rw [hres]
  dsimp only
  rw [show (env.sequence.isSequence && !env.sequence.isDone) = false from by
    rw [hseq, hdone]; rfl]
  rw [if_neg (by simp)]
  dsimp only
  rw [hnew]
  dsimp only
  rw [htr]
  dsimp only
  rw [hseq, if_pos rfl, hfail]
  dsimp only
  unfold runCascade runCascadeInner
  rw [findError, hexp]
  dsimp only
  rw [hdef, hgw]
  dsimp only
  rw [hact]
  dsimp only
  rw [herr]
  rfl

/-- Witness for C5 (amended): the concrete tracker-failure environment. -/
theorem C5_witness :
    runWrapper c5env
      = (.threw (.rethrow (.unhandled 500 (.plain "tracker down"))), []) :=
  C5_tracker_failure_enters_cascade c5env (.num 3) "tracker down" "tracker"
    ⟨"B", [], .task, .active, none, .noPolicy⟩ c5env.sequence
    rfl rfl rfl rfl rfl rfl rfl rfl rfl rfl rfl

/-- The C8 environment whose active step carries a local conductor
`onError` handler (modelled by the boolean it would return). -/
def c8handlerEnv (b : Bool) : WrapperEnv :=
  { sequence := ⟨[⟨"A", [], .task, .active, none, .handler b⟩], []⟩
    isApiGatewayRequest := false
    functionName := "fnA"
    correlationId := "c-8"
    awsRequestId := "r-8"
    userResult := .error (.plain "boom")
    errorMeta := { expectations := [], defaultHandling := .default, defaultErrorCode := 500 } }

/-- The C8 environment whose active step carries an `[arn, params]`
conductor forwarding tuple. -/
def c8forwardEnv : WrapperEnv :=
  { sequence := ⟨[⟨"A", [], .task, .active, none,
                   .forward "errorFn" [("p", .num 1)]⟩], []⟩
    isApiGatewayRequest := false
    functionName := "fnA"
    correlationId := "c-8"
    awsRequestId := "r-8"
    userResult := .error (.plain "boom")
    errorMeta := { expectations := [], defaultHandling := .default, defaultErrorCode := 500 } }

/-- C8: the conductor-level error policy does not behave as claimed.  A
local `onError` handler is never invoked — the source constructs the
`resolvedByConductor` closure but never calls it — so even a handler that
would return `true` does not resolve the error: for either handler
outcome the wrapper throws the `RethrowError`-wrapped `UnhandledError`.
An `[arn, params]` tuple does suppress the error, but the named function
is invoked with the tuple's stored params, not with the error payload. -/
theorem C8_conductor_policy_divergence :
    (∀ b : Bool, runWrapper (c8handlerEnv b)
      = (.threw (.rethrow (.unhandled 500 (.plain "boom"))), [])) ∧
    runWrapper c8forwardEnv
      = (.returned .undef, [.params "errorFn" [("p", .num 1)]]) :=
  ⟨fun b => by cases b <;> rfl, rfl⟩

namespace LambdaSequence

/-- The at-most-one-active invariant on a sequence state. -/
def SeqInv (s : LambdaSequence) : Prop := s.steps.countP Step.isActive ≤ 1

/-- One observable state change of the sequence object: the step statuses
only advance pointwise and the at-most-one-active invariant is
preserved. -/
def StateStep (s t : LambdaSequence) : Prop :=
  StepsAdvance s.steps t.steps ∧ (SeqInv s → SeqInv t)

theorem stateStep_refl {s : LambdaSequence} : StateStep s s :=
  ⟨stepsAdvance_refl _, id⟩

theorem stateStep_trans {s t u : LambdaSequence}
    (h₁ : StateStep s t) (h₂ : StateStep t u) : StateStep s u :=
  ⟨stepsAdvance_trans h₁.1 h₂.1, fun h => h₂.2 (h₁.2 h)⟩

theorem activeFn_stateStep (s : LambdaSequence) : StateStep s (s.activeFn).2 := by
  unfold activeFn
  split
  · exact stateStep_refl
  · split
    · exact stateStep_refl
    · split
      · have hna : s.steps.find? Step.isActive = none := by assumption
        refine ⟨promoteFirstAssigned_advance _, fun h => ?_⟩
        have h0 := countP_zero_of_find?_none hna
        have hle := countP_promoteFirstAssigned_le s.steps
        unfold SeqInv
        dsimp only
        omega
      · exact stateStep_refl

theorem completeFirstActive_stateStep (s : LambdaSequence) :
    StateStep s ⟨completeFirstActive s.steps, s.responses⟩ := by
  refine ⟨completeFirstActive_advance _, fun h => ?_⟩
  have := countP_completeFirstActive_le s.steps
  unfold SeqInv at *
  dsimp only
  omega

theorem finishStep_stateStep (s : LambdaSequence) (r : JVal) :
    StateStep s (s.finishStep r).2 := by
  unfold finishStep
  rcases h₁ : s.activeFn with ⟨res₁, s₁⟩
  have hs₁ : StateStep s s₁ := by
    have h' := activeFn_stateStep s
    rwa [h₁] at h'
  cases res₁ with
  | error e => exact hs₁
  | ok opt =>
    cases opt with
    | none => exact hs₁
    | some st =>
      dsimp only
      rcases h₂ : ({ s₁ with responses := setKey s₁.responses st.arn r } :
          LambdaSequence).activeFn with ⟨res₂, s₃⟩
      have hs₂ : StateStep s₁ s₃ := by
        have h' := activeFn_stateStep { s₁ with responses := setKey s₁.responses st.arn r }
        rw [h₂] at h'
        exact h'
      cases res₂ with
      | error e => exact stateStep_trans hs₁ hs₂
      | ok opt₂ =>
        cases opt₂ with
        | none => exact stateStep_trans hs₁ hs₂
        | some st₂ =>
          exact stateStep_trans (stateStep_trans hs₁ hs₂) (completeFirstActive_stateStep s₃)

theorem toObject_stateStep (s : LambdaSequence) : StateStep s (s.toObject).2 := by
  unfold toObject
  split
  · rcases h₁ : s.activeFn with ⟨res₁, s₁⟩
    have hs₁ : StateStep s s₁ := by
      have h' := activeFn_stateStep s
      rwa [h₁] at h'
    cases res₁ with
    | error e => exact hs₁
    | ok act => exact hs₁
  · exact stateStep_refl

theorem getInvocationParameters_stateStep (s : LambdaSequence) :
    StateStep s (s.getInvocationParameters).2 := by
  unfold getInvocationParameters
  rcases h₁ : s.activeFn with ⟨res₁, s₁⟩
  have hs₁ : StateStep s s₁ := by
    have h' := activeFn_stateStep s
    rwa [h₁] at h'
  cases res₁ with
  | error e => exact hs₁
  | ok opt =>
    cases opt with
    | none => exact hs₁
    | some st =>
      dsimp only
      split
      · exact hs₁
      · rcases h₂ : s₁.activeFn with ⟨res₂, s₂⟩
        have hs₂ : StateStep s₁ s₂ := by
          have h' := activeFn_stateStep s₁
          rwa [h₂] at h'
        cases res₂ with
        | error e => exact stateStep_trans hs₁ hs₂
        | ok opt₂ =>
          cases opt₂ with
          | none => exact stateStep_trans hs₁ hs₂
          | some st₂ =>
            dsimp only
            rcases h₃ : s₂.toObject with ⟨res₃, s₃⟩
            have hs₃ : StateStep s₂ s₃ := by
              have h' := toObject_stateStep s₂
              rwa [h₃] at h'
            cases res₃ with
            | error e => exact stateStep_trans (stateStep_trans hs₁ hs₂) hs₃
            | ok ser => exact stateStep_trans (stateStep_trans hs₁ hs₂) hs₃

theorem next_stateStep (s : LambdaSequence) (r : JVal) :
    StateStep s (s.next r).2 := by
  unfold next
  rcases h₁ : s.finishStep r with ⟨res₁, s₁⟩
  have hs₁ : StateStep s s₁ := by
    have h' := finishStep_stateStep s r
    rwa [h₁] at h'
  cases res₁ with
  | error e => exact hs₁
  | ok u =>
    cases u
    have h' := getInvocationParameters_stateStep s₁
    exact stateStep_trans hs₁ h'

theorem countP_map_paramsSet (l : List Step) (tr : List (String × JVal))
    (arn : String) :
    (l.map (fun st' => if st'.arn = arn then { st' with params := tr } else st')).countP
      Step.isActive = l.countP Step.isActive := by
  induction l with
  | nil => rfl
  | cons st rest ih =>
    rw [List.map_cons]
    by_cases h : st.arn = arn
    · rw [if_pos h, List.countP_cons, List.countP_cons, ih]
      have : Step.isActive { st with params := tr } = Step.isActive st := by
        simp [Step.isActive]
      rw [this]
    · rw [if_neg h, List.countP_cons, List.countP_cons, ih]

theorem ingestSteps_inv {s : LambdaSequence} {req : JVal} {steps : List Step}
    (hs : SeqInv s) (hsteps : steps.countP Step.isActive ≤ 1) :
    SeqInv (s.ingestSteps req steps).2 := by
  unfold ingestSteps
  split
  · exact hs
  · dsimp only
    rcases h₁ : ({ s with steps := steps } : LambdaSequence).activeFn with ⟨res₁, s₁⟩
    have hinv₁ : SeqInv s₁ := by
      have h' := activeFn_stateStep { s with steps := steps }
      rw [h₁] at h'
      exact h'.2 hsteps
    cases res₁ with
    | error e => exact hinv₁
    | ok act =>
      dsimp only
      cases act with
      | none => exact hinv₁
      | some st =>
        unfold SeqInv
        dsimp only
        rw [countP_map_paramsSet]
        exact hinv₁

/-- The sequence states reachable in the model: built from the empty
sequence by `add`/`onCondition`, mutated by the lazy promotion of the
`activeFn` getter, by `finishStep`, `next`, `getInvocationParameters`,
serialization (`toObject`), and by `ingestSteps` on a step list that
itself satisfies the at-most-one-active invariant (as any list produced by
serializing a reachable sequence does). -/
inductive Reachable : LambdaSequence → Prop where
  | empty : Reachable ⟨[], []⟩
  | addStep (s : LambdaSequence) (arn : String) (params : List (String × JVal))
      (ftype : FnType) : Reachable s → Reachable (s.add arn params ftype)
  | condStep (s : LambdaSequence) (b : Bool) (arn : String)
      (params : List (String × JVal)) : Reachable s →
      Reachable (s.onCondition b arn params)
  | activeFnRead (s : LambdaSequence) : Reachable s → Reachable (s.activeFn).2
  | finish (s : LambdaSequence) (r : JVal) : Reachable s →
      Reachable (s.finishStep r).2
  | nextRead (s : LambdaSequence) (r : JVal) : Reachable s →
      Reachable (s.next r).2
  | invocation (s : LambdaSequence) : Reachable s →
      Reachable (s.getInvocationParameters).2
  | serialize (s : LambdaSequence) : Reachable s → Reachable (s.toObject).2
  | ingest (s : LambdaSequence) (req : JVal) (steps : List Step) :
      Reachable s → steps.countP Step.isActive ≤ 1 →
      Reachable (s.ingestSteps req steps).2

theorem reachable_inv {s : LambdaSequence} (h : Reachable s) : SeqInv s := by
  induction h with
  | empty => unfold SeqInv; simp
  | addStep s arn params ftype _ ih =>
    unfold SeqInv add at *
    dsimp only
    rw [List.countP_append]
    have : ([({ arn := arn, params := params, ftype := ftype, status := .assigned } :
        Step)]).countP Step.isActive = 0 := rfl
    omega
  | condStep s b arn params _ ih =>
    unfold SeqInv onCondition at *
    dsimp only
    rw [List.countP_append]
    have : ([({ arn := arn, params := params, ftype := .task, status := .assigned,
                onCondition := some b } : Step)]).countP Step.isActive = 0 := rfl
    omega
  | activeFnRead s _ ih => exact (activeFn_stateStep s).2 ih
  | finish s r _ ih => exact (finishStep_stateStep s r).2 ih
  | nextRead s r _ ih => exact (next_stateStep s r).2 ih
  | invocation s _ ih => exact (getInvocationParameters_stateStep s).2 ih
  | serialize s _ ih => exact (toObject_stateStep s).2 ih
  | ingest s req steps _ hle ih => exact ingestSteps_inv ih hle

/-- Every step carries exactly one of the four statuses, so the four
status counts partition the step list. -/
theorem countP_status_partition (l : List Step) :
    l.countP Step.isCompleted + l.countP Step.isActive + l.countP Step.isAssigned +
      l.countP Step.isSkipped = l.length := by
  induction l with
  | nil => rfl
  | cons st rest ih =>
    simp only [List.countP_cons, List.length_cons]
    cases hst : st.status <;>
      simp [Step.isActive, Step.isAssigned, Step.isCompleted, Step.isSkipped, hst,
        beq_iff_eq] <;>
      omega

end LambdaSequence

open LambdaSequence in
/-- C4: every reachable sequence state has at most one active step, the
four status counts partition the step list; and each state-changing
operation (the lazy promotion in `activeFn`, `finishStep`, `next`,
serialization) only moves each individual step's status forward, while
`add` leaves all existing steps untouched. -/
theorem C4_state_machine_invariants :
    (∀ s : LambdaSequence, Reachable s →
      s.steps.countP Step.isActive ≤ 1 ∧
      s.steps.countP Step.isCompleted + s.steps.countP Step.isActive +
        s.steps.countP Step.isAssigned + s.steps.countP Step.isSkipped
        = s.steps.length) ∧
    (∀ s : LambdaSequence, StepsAdvance s.steps (s.activeFn).2.steps) ∧
    (∀ (s : LambdaSequence) (r : JVal), StepsAdvance s.steps (s.finishStep r).2.steps) ∧
    (∀ (s : LambdaSequence) (r : JVal), StepsAdvance s.steps (s.next r).2.steps) ∧
    (∀ s : LambdaSequence, StepsAdvance s.steps (s.toObject).2.steps) ∧
    (∀ (s : LambdaSequence) (arn : String) (params : List (String × JVal))
      (ftype : FnType), (s.add arn params ftype).steps.take s.steps.length = s.steps) :=
  ⟨fun s h => ⟨reachable_inv h, countP_status_partition s.steps⟩,
   fun s => (activeFn_stateStep s).1,
   fun s r => (finishStep_stateStep s r).1,
   fun s r => (next_stateStep s r).1,
   fun s => (toObject_stateStep s).1,
   fun _ _ _ _ => List.take_left _ _⟩

open LambdaSequence in
/-- Witness for C4: the invariants at a concrete reachable state — the
sequence built by two `add` calls, read through `activeFn` (which promotes
the first step). -/
theorem C4_witness :
    ((((⟨[], []⟩ : LambdaSequence).add "A" [] .task).add "B" [] .task).activeFn).2.steps.countP
        Step.isActive ≤ 1 ∧
    ((((⟨[], []⟩ : LambdaSequence).add "A" [] .task).add "B" [] .task).activeFn).2.steps.countP
          Step.isCompleted +
        ((((⟨[], []⟩ : LambdaSequence).add "A" [] .task).add "B" [] .task).activeFn).2.steps.countP
          Step.isActive +
        ((((⟨[], []⟩ : LambdaSequence).add "A" [] .task).add "B" [] .task).activeFn).2.steps.countP
          Step.isAssigned +
        ((((⟨[], []⟩ : LambdaSequence).add "A" [] .task).add "B" [] .task).activeFn).2.steps.countP
          Step.isSkipped
      = ((((⟨[], []⟩ : LambdaSequence).add "A" [] .task).add "B" [] .task).activeFn).2.steps.length ∧
    StepsAdvance (((⟨[], []⟩ : LambdaSequence).add "A" [] .task).add "B" [] .task).steps
      ((((⟨[], []⟩ : LambdaSequence).add "A" [] .task).add "B" [] .task).activeFn).2.steps := by
  have hreach : Reachable ((((⟨[], []⟩ : LambdaSequence).add "A" [] .task).add
      "B" [] .task).activeFn).2 :=
    Reachable.activeFnRead _ (Reachable.addStep _ "B" [] .task
      (Reachable.addStep _ "A" [] .task Reachable.empty))
  obtain ⟨h1, h2⟩ := (C4_state_machine_invariants.1 _ hreach)
  exact ⟨h1, h2, C4_state_machine_invariants.2.1 _⟩
